import Mathlib

/- Shallow embedding of the knnlm-why scoring core:
   src/fairseq/sequence_scorer.py and src/analysis/faiss_mask_flat_gpu.py.
   Float tensors are modelled as lists of rationals where only comparisons
   and assignments occur, and as lists of reals where log/exp arithmetic
   occurs; integer token ids are modelled as Int. -/

/-- Sum in log space: Real.log of the sum of exponentials.  Embeds
torch.logsumexp along the reduced dimension. -/
noncomputable def logsumexp (xs : List ℝ) : ℝ :=
  Real.log ((xs.map Real.exp).sum)

/-- Embeds torch.nn.functional.log_softmax: each entry minus the logsumexp
of the whole vector (the max-shifted torch implementation is mathematically
equal to this). -/
noncomputable def log_softmax (xs : List ℝ) : List ℝ :=
  xs.map (fun x => x - logsumexp xs)

/-- Embeds combine_knn_and_vocab_probs (sequence_scorer.py lines 84-91):
stack [vocab_p, knn_p], add the coefficients [log(1-coeff), log(coeff)],
and logsumexp over the stacking dimension.  The source performs no
validation of coeff anywhere. -/
noncomputable def combine_knn_and_vocab_probs (knn_p vocab_p coeff : ℝ) : ℝ :=
  logsumexp [vocab_p + Real.log (1 - coeff), knn_p + Real.log coeff]

/-- Error taxonomy of the scorer.  The only raise on the scoring path of
sequence_scorer.py is the ensemble check at line 137 (onlyKnnLogProbs);
invalidMixingWeight names the error the spec postulates for a mixing
weight outside (0,1), so that its absence from the code is statable. -/
inductive ScorerError where
  | onlyKnnLogProbs
  | invalidMixingWeight
deriving DecidableEq

/-- Embeds the retrieval-fusion step of SequenceScorer.generate
(sequence_scorer.py lines 132-152): when a knn datastore is supplied,
first raise ValueError if len(models) != 1, otherwise interpolate the
retrieval and model log-probabilities with combine_knn_and_vocab_probs.
No check of the mixing weight occurs on this path. -/
noncomputable def knnFusionStep (numModels : ℕ) (knn_p vocab_p coeff : ℝ) :
    Except ScorerError ℝ :=
  if numModels ≠ 1 then Except.error ScorerError.onlyKnnLogProbs
  else Except.ok (combine_knn_and_vocab_probs knn_p vocab_p coeff)

/-- Fuel-indexed form of the slicing loop in batch_for_softmax
(sequence_scorer.py lines 71-75): repeatedly take softmax_batch elements
off the flattened batch until it is exhausted.  Fuel bounds the loop;
xs.length steps suffice whenever the slice size is at least 1. -/
def chunksFuel {α : Type*} (sb : ℕ) : ℕ → List α → List (List α)
  | 0, _ => []
  | _ + 1, [] => []
  | fuel + 1, x :: tl => (x :: tl).take sb :: chunksFuel sb fuel ((x :: tl).drop sb)

/-- Embeds batch_for_softmax (sequence_scorer.py lines 62-75): one full
slice when bsz*tsz < softmax_batch, otherwise fixed-size slices of the
flattened batch.  The branch is chosen once per call. -/
def batch_for_softmax {α : Type*} (sb : ℕ) (xs : List α) : List (List α) :=
  if xs.length < sb then [xs] else chunksFuel sb xs.length xs

/-- Embeds the scoring loop of SequenceScorer.generate (lines 105-130):
for each slice, obtain the normalized probabilities and gather each
position's target entry (f, applied pointwise per position); each slice's
results land at the slice's absolute offset in the flat output buffer,
which the concatenation models. -/
def scoreBatch {α β : Type*} (sb : ℕ) (f : α → β) (xs : List α) : List β :=
  ((batch_for_softmax sb xs).map (fun sl => sl.map f)).flatten

/-- Embeds faiss_mask_flat_gpu.py lines 63-65: index_mask is
eq(vals[knns], tgt) as a float tensor, then entries equal to 0 are set to
-10000 and entries equal to 1 are set to 0, in that order. -/
def index_mask (vals : List ℤ) (tgt : ℤ) : List ℚ :=
  ((vals.map (fun v => if v = tgt then (1 : ℚ) else 0)).map
      (fun x => if x = 0 then (-10000 : ℚ) else x)).map
      (fun x => if x = 1 then (0 : ℚ) else x)

/-- Embeds faiss_mask_flat_gpu.py lines 60-62: negate the raw search
distances and log-softmax them scaled by 1/temp. -/
noncomputable def converter_probs (rawDists : List ℚ) (temp : ℝ) : List ℝ :=
  log_softmax (rawDists.map (fun d : ℚ => (-(d : ℝ)) / temp))

/-- Embeds faiss_mask_flat_gpu.py line 66: logsumexp over the k candidates
of the converted log-probabilities plus the target mask. -/
noncomputable def yhat_knn_prob (rawDists : List ℚ) (vals : List ℤ) (tgt : ℤ)
    (temp : ℝ) : ℝ :=
  logsumexp (List.zipWith (· + ·) (converter_probs rawDists temp)
    ((index_mask vals tgt).map (fun q : ℚ => (q : ℝ))))

/-- Embeds the clamp-then-log of the projection path
(sequence_scorer.py line 115). -/
noncomputable def clampLog (x : ℝ) : ℝ := Real.log (max x (1e-9 : ℝ))

/-- Embeds sequence_scorer.py lines 109-127: the per-model quantity
gathered at the target index.  p is the model's probability vector over
the vocabulary (get_normalized_probs with log_probs=False); with no
projection matrix, get_normalized_probs is called with
log_probs=(len(models)==1); with a projection matrix the projected
probabilities are clamped at 1e-9 and logged regardless of the model
count. -/
noncomputable def currTargetProb (coef : Option (List ℝ → List ℝ))
    (numModels : ℕ) (p : List ℝ) (tgt : ℕ) : ℝ :=
  match coef with
  | none => if numModels = 1 then (p.map Real.log).getD tgt 0 else p.getD tgt 0
  | some proj => ((proj p).map clampLog).getD tgt 0

/-- Embeds sequence_scorer.py lines 154-167: sum the per-model gathered
quantities into avg_probs; when more than one model is supplied, divide by
the model count and take the log in place. -/
noncomputable def ensembleAvgProb (coef : Option (List ℝ → List ℝ))
    (modelsP : List (List ℝ)) (tgt : ℕ) : ℝ :=
  let n := modelsP.length
  let s := (modelsP.map (fun p => currTargetProb coef n p tgt)).sum
  if 1 < n then Real.log (s / (n : ℝ)) else s

/-- Embeds fairseq.utils.strip_pad: keep the entries different from pad. -/
def strip_pad (xs : List ℤ) (pad : ℤ) : List ℤ := xs.filter (fun t => t ≠ pad)

/-- Embeds sequence_scorer.py lines 173-183: from the start offset s,
strip pad from the target tail to obtain tgt_len, slice the positional
log-probabilities avg[s : s+tgt_len], and average them. -/
noncomputable def sequenceScore (pad : ℤ) (target : List ℤ) (avg : List ℝ)
    (s : ℕ) : ℝ :=
  let ref := strip_pad (target.drop s) pad
  let tgtLen := ref.length
  (((avg.drop s).take tgtLen).sum) / (tgtLen : ℝ)

/-- Embeds faiss_mask_flat_gpu.py line 60: dists = -1 * dists. -/
def negDists (ds : List ℚ) : List ℚ := ds.map (fun d => -d)

/-- Embeds the per-temperature sweep loop of faiss_mask_flat_gpu.py
(lines 49-73): queries are processed in groups of batch_size; per query,
the search backend returns raw distances and neighbor ids, the mask is
built from the datastore value array indexed at the neighbor ids, and the
three growing output arrays hold (a) the aggregated retrieval
log-probability, (b) the neighbor ids, and (c) the sum over k of the
negated distances (line 60 negates before line 68 sums). -/
noncomputable def sweepOutputs {α : Type*} (bs : ℕ) (vals : List ℤ)
    (search : α → List ℚ × List ℕ) (tgtOf : α → ℤ) (temp : ℝ) (qs : List α) :
    List ℝ × List (List ℕ) × List ℚ :=
  let batches := chunksFuel bs qs.length qs
  ( (batches.map (fun b => b.map (fun q =>
      yhat_knn_prob (search q).1 ((search q).2.map (fun j => vals.getD j 0))
        (tgtOf q) temp))).flatten,
    (batches.map (fun b => b.map (fun q => (search q).2))).flatten,
    (batches.map (fun b => b.map (fun q => (negDists (search q).1).sum))).flatten )

/-- Python sys.maxsize on a 64-bit platform. -/
def sysMaxsize : ℕ := 2 ^ 63 - 1

/-- Embeds SequenceScorer.__init__ (sequence_scorer.py lines 19-23):
softmax_batch or sys.maxsize (Python or treats both None and 0 as falsy),
then assert softmax_batch > 0. -/
def initSoftmaxBatch (softmax_batch : Option ℤ) : Except String ℤ :=
  let sb : ℤ := match softmax_batch with
    | none => (sysMaxsize : ℤ)
    | some v => if v = 0 then (sysMaxsize : ℤ) else v
  if 0 < sb then Except.ok sb else Except.error "assert softmax_batch > 0"

/-! Helper lemmas shared across the claims. -/

lemma chunksFuel_flatten {α : Type*} (sb : ℕ) (hsb : 1 ≤ sb) :
    ∀ (fuel : ℕ) (xs : List α), xs.length ≤ fuel →
      (chunksFuel sb fuel xs).flatten = xs := by
  intro fuel
  induction fuel with
  | zero =>
    intro xs h
    have hx : xs = [] := List.eq_nil_of_length_eq_zero (Nat.le_zero.mp h)
    subst hx
    rfl
  | succ n ih =>
    intro xs h
    cases xs with
    | nil => rfl
    | cons a tl =>
      simp only [chunksFuel, List.flatten_cons]
      rw [ih ((a :: tl).drop sb) (by
        rw [List.length_drop]
        simp only [List.length_cons] at h ⊢
        omega)]
      exact List.take_append_drop sb (a :: tl)

lemma scoreBatch_eq_map {α β : Type*} (sb : ℕ) (hsb : 1 ≤ sb) (f : α → β)
    (xs : List α) : scoreBatch sb f xs = xs.map f := by
  unfold scoreBatch batch_for_softmax
  by_cases h : xs.length < sb
  · simp [h]
  · rw [if_neg h, ← List.map_flatten, chunksFuel_flatten sb hsb xs.length xs le_rfl]

lemma index_mask_eq (vals : List ℤ) (tgt : ℤ) :
    index_mask vals tgt = vals.map (fun v => if v = tgt then (0 : ℚ) else -10000) := by
  unfold index_mask
  rw [List.map_map, List.map_map]
  have hfun : (((fun x => if x = 1 then (0 : ℚ) else x) ∘
      (fun x => if x = 0 then (-10000 : ℚ) else x)) ∘
      (fun v => if v = tgt then (1 : ℚ) else 0)) =
      fun v => if v = tgt then (0 : ℚ) else -10000 := by
    funext v
    by_cases h : v = tgt <;> norm_num [h, Function.comp]
  rw [hfun]

/-- Claim C3: with a softmax-batch-size limit below batch*seq the chunked
path (flatten, slice, gather per slice into the buffer at the absolute
offset, reassemble) produces exactly the per-token target probabilities of
the single-shot path taken under a limit above batch*seq; the branch is a
single if, decided once per call. -/
theorem C3_chunked_eq_single_shot {α β : Type*} (f : α → β) (xs : List α)
    (sb1 sb2 : ℕ) (h1 : 1 ≤ sb1) (h2 : sb1 ≤ xs.length) (h3 : xs.length < sb2) :
    scoreBatch sb1 f xs = scoreBatch sb2 f xs := by
  rw [scoreBatch_eq_map sb1 h1, scoreBatch_eq_map sb2 (by omega)]

theorem C3_chunked_eq_single_shot_witness :
    1 ≤ 2 ∧ 2 ≤ ([1, 2, 3] : List ℕ).length ∧ ([1, 2, 3] : List ℕ).length < 4 ∧
      scoreBatch 2 (fun n => n + 1) ([1, 2, 3] : List ℕ) =
        scoreBatch 4 (fun n => n + 1) ([1, 2, 3] : List ℕ) :=
  ⟨by decide, by decide, by decide,
    C3_chunked_eq_single_shot (fun n => n + 1) [1, 2, 3] 2 4
      (by decide) (by decide) (by decide)⟩

/-- Claim C5: the target-matching mask has the shape of the retrieved
value ids, with additive bias 0 exactly at entries equal to the target id
and the finite bias -10000 (= -1e4, not negative infinity) elsewhere. -/
theorem C5_index_mask_values (vals : List ℤ) (tgt : ℤ) :
    index_mask vals tgt = vals.map (fun v => if v = tgt then (0 : ℚ) else -10000) ∧
      (index_mask vals tgt).length = vals.length := by
  refine ⟨index_mask_eq vals tgt, ?_⟩
  rw [index_mask_eq vals tgt, List.length_map]

/-- Claim C9: requesting retrieval fusion with more than one ensembled
model fails with the explicit rejection error (ValueError at line 137);
with exactly one model the fusion step succeeds and interpolates. -/
theorem C9_ensemble_fusion_rejected (n : ℕ) (hn : 1 < n)
    (knn_p vocab_p coeff : ℝ) :
    knnFusionStep n knn_p vocab_p coeff =
        Except.error ScorerError.onlyKnnLogProbs ∧
      ∀ kp vp c : ℝ, knnFusionStep 1 kp vp c =
        Except.ok (combine_knn_and_vocab_probs kp vp c) := by
  constructor
  · unfold knnFusionStep
    rw [if_pos (by omega)]
  · intro kp vp c
    unfold knnFusionStep
    simp

theorem C9_ensemble_fusion_rejected_witness :
    knnFusionStep 2 0 0 (1 / 2) = Except.error ScorerError.onlyKnnLogProbs ∧
      knnFusionStep 1 0 0 (1 / 2) =
        Except.ok (combine_knn_and_vocab_probs 0 0 (1 / 2)) :=
  ⟨(C9_ensemble_fusion_rejected 2 (by norm_num) 0 0 (1 / 2)).1,
   (C9_ensemble_fusion_rejected 2 (by norm_num) 0 0 (1 / 2)).2 0 0 (1 / 2)⟩

/-- Claim C1, counterexample: at the mixing weight 2, outside (0,1), the
single-model fusion step does not fail with the invalid-mixing-weight
error; it produces a result (the source has no validation of the weight). -/
theorem C1_no_mixing_weight_check :
    knnFusionStep 1 0 0 2 = Except.ok (combine_knn_and_vocab_probs 0 0 2) ∧
      knnFusionStep 1 0 0 2 ≠ Except.error ScorerError.invalidMixingWeight := by
  constructor
  · unfold knnFusionStep
    simp
  · unfold knnFusionStep
    simp

/-- Claim C1, amended: for a mixing weight strictly inside (0,1) the
single-model interpolation returns logsumexp over
[vocab_p + log(1-coeff), knn_p + log(coeff)], which equals the log of the
two-way probability mixture; no mixing-weight validation is performed. -/
theorem C1_interpolation_logsumexp (knn_p vocab_p coeff : ℝ)
    (h0 : 0 < coeff) (h1 : coeff < 1) :
    knnFusionStep 1 knn_p vocab_p coeff =
      Except.ok (Real.log ((1 - coeff) * Real.exp vocab_p +
        coeff * Real.exp knn_p)) := by
  unfold knnFusionStep
  rw [if_neg (by simp)]
  congr 1
  unfold combine_knn_and_vocab_probs logsumexp
  simp only [List.map_cons, List.map_nil, List.sum_cons, List.sum_nil, add_zero]
  rw [Real.exp_add, Real.exp_add, Real.exp_log (by linarith : (0:ℝ) < 1 - coeff),
    Real.exp_log h0]
  congr 1
  ring

theorem C1_interpolation_logsumexp_witness :
    knnFusionStep 1 0 0 (1 / 2) =
      Except.ok (Real.log ((1 - 1 / 2) * Real.exp 0 + 1 / 2 * Real.exp 0)) :=
  C1_interpolation_logsumexp 0 0 (1 / 2) (by norm_num) (by norm_num)

/-- Claim C10: softmax_batch = 0 passes construction: Python or replaces
the falsy 0 by sys.maxsize, the positivity assertion then holds, negative
values are the only ones the assertion rejects, and under the resulting
limit every scoring call whose flattened size is below sys.maxsize takes
the single-shot path. -/
theorem C10_softmax_batch_zero :
    initSoftmaxBatch (some 0) = Except.ok ((sysMaxsize : ℕ) : ℤ) ∧
      (∀ v : ℤ, v < 0 →
        initSoftmaxBatch (some v) = Except.error "assert softmax_batch > 0") ∧
      (∀ v : ℤ, 0 < v → initSoftmaxBatch (some v) = Except.ok v) ∧
      (∀ (xs : List ℕ) (f : ℕ → ℕ), xs.length < sysMaxsize →
        scoreBatch sysMaxsize f xs = xs.map f) := by
  refine ⟨?_, ?_, ?_, ?_⟩
  · unfold initSoftmaxBatch sysMaxsize
    norm_num
  · intro v hv
    have hv0 : ¬ v = 0 := by omega
    have hneg : ¬ (0 : ℤ) < v := by omega
    simp [initSoftmaxBatch, hv0, hneg]
  · intro v hv
    have hv0 : ¬ v = 0 := by omega
    simp [initSoftmaxBatch, hv0, hv]
  · intro xs f h
    unfold scoreBatch batch_for_softmax
    rw [if_pos h]
    simp

theorem C10_softmax_batch_zero_witness :
    initSoftmaxBatch (some 0) = Except.ok ((sysMaxsize : ℕ) : ℤ) ∧
      initSoftmaxBatch (some (-3)) = Except.error "assert softmax_batch > 0" ∧
      initSoftmaxBatch (some 5) = Except.ok 5 ∧
      scoreBatch sysMaxsize (fun n => n + 1) ([1, 2, 3] : List ℕ) =
        [1, 2, 3].map (fun n => n + 1) :=
  ⟨C10_softmax_batch_zero.1,
   C10_softmax_batch_zero.2.1 (-3) (by norm_num),
   C10_softmax_batch_zero.2.2.1 5 (by norm_num),
   C10_softmax_batch_zero.2.2.2 [1, 2, 3] (fun n => n + 1)
     (by norm_num [sysMaxsize])⟩

lemma sum_exp_pos (xs : List ℝ) (h : xs ≠ []) : 0 < (xs.map Real.exp).sum := by
  apply List.sum_pos
  · intro x hx
    obtain ⟨y, _, rfl⟩ := List.mem_map.mp hx
    exact Real.exp_pos y
  · intro hm
    exact h (by simpa using hm)

lemma logsumexp_map_add_const (xs : List ℝ) (c : ℝ) (h : xs ≠ []) :
    logsumexp (xs.map (fun x => x + c)) = logsumexp xs + c := by
  unfold logsumexp
  rw [List.map_map]
  have hcomp : (Real.exp ∘ fun x => x + c) = fun x => Real.exp x * Real.exp c := by
    funext x
    simp [Function.comp, Real.exp_add]
  rw [hcomp, List.sum_map_mul_right,
    Real.log_mul (ne_of_gt (sum_exp_pos xs h)) (Real.exp_ne_zero c), Real.log_exp]

lemma sum_exp_log_softmax (xs : List ℝ) (h : xs ≠ []) :
    ((log_softmax xs).map Real.exp).sum = 1 := by
  unfold log_softmax
  rw [List.map_map]
  have hcomp : (Real.exp ∘ fun x => x - logsumexp xs) =
      fun x => Real.exp x * Real.exp (-(logsumexp xs)) := by
    funext x
    simp [Function.comp, Real.exp_sub, Real.exp_neg, div_eq_mul_inv]
  rw [hcomp, List.sum_map_mul_right]
  unfold logsumexp
  rw [Real.exp_neg, Real.exp_log (sum_exp_pos xs h)]
  exact mul_inv_cancel₀ (ne_of_gt (sum_exp_pos xs h))

lemma logsumexp_log_softmax (xs : List ℝ) (h : xs ≠ []) :
    logsumexp (log_softmax xs) = 0 := by
  unfold logsumexp
  rw [sum_exp_log_softmax xs h, Real.log_one]

lemma zipWith_add_replicate (c : ℝ) :
    ∀ xs : List ℝ, List.zipWith (· + ·) xs (List.replicate xs.length c) =
      xs.map (fun x => x + c) := by
  intro xs
  induction xs with
  | nil => rfl
  | cons x tl ih => simp [List.replicate_succ, ih]

lemma converter_probs_ne_nil (rawDists : List ℚ) (temp : ℝ)
    (h : rawDists ≠ []) : converter_probs rawDists temp ≠ [] := by
  unfold converter_probs log_softmax
  simp only [ne_eq, List.map_eq_nil_iff]
  exact h

lemma converter_probs_length (rawDists : List ℚ) (temp : ℝ) :
    (converter_probs rawDists temp).length = rawDists.length := by
  unfold converter_probs log_softmax
  rw [List.length_map, List.length_map]

/-- Claim C2: when none of the k retrieved candidate values equals the
target, the masked aggregation equals exactly -10000 — a finite real below
-100, never a NaN or a literal negative infinity — and no error path
exists. -/
theorem C2_no_match_neg10000 (rawDists : List ℚ) (vals : List ℤ) (tgt : ℤ)
    (temp : ℝ) (hne : rawDists ≠ []) (hlen : vals.length = rawDists.length)
    (hall : ∀ v ∈ vals, v ≠ tgt) :
    yhat_knn_prob rawDists vals tgt temp = -10000 ∧
      yhat_knn_prob rawDists vals tgt temp < -100 := by
  have hmask : (index_mask vals tgt).map (fun q : ℚ => (q : ℝ)) =
      List.replicate (converter_probs rawDists temp).length (-10000 : ℝ) := by
    rw [index_mask_eq, List.map_map]
    have h1 : vals.map ((fun q : ℚ => (q : ℝ)) ∘
        fun v => if v = tgt then (0 : ℚ) else -10000) =
        vals.map (fun _ => (-10000 : ℝ)) := by
      apply List.map_congr_left
      intro v hv
      norm_num [Function.comp, hall v hv]
    rw [h1, List.map_const', converter_probs_length, hlen]
  have heq : yhat_knn_prob rawDists vals tgt temp = -10000 := by
    unfold yhat_knn_prob
    rw [hmask, zipWith_add_replicate,
      logsumexp_map_add_const _ _ (converter_probs_ne_nil rawDists temp hne)]
    have h0 : logsumexp (converter_probs rawDists temp) = 0 := by
      unfold converter_probs
      exact logsumexp_log_softmax _ (by simpa using hne)
    rw [h0]
    norm_num
  exact ⟨heq, by rw [heq]; norm_num⟩

theorem C2_no_match_neg10000_witness :
    ([1, 2] : List ℚ) ≠ [] ∧
      ([3, 4] : List ℤ).length = ([1, 2] : List ℚ).length ∧
      (∀ v ∈ ([3, 4] : List ℤ), v ≠ 5) ∧
      yhat_knn_prob [1, 2] [3, 4] 5 2 = -10000 :=
  ⟨by decide, by decide, by decide,
    (C2_no_match_neg10000 [1, 2] [3, 4] 5 2 (by decide) (by decide)
      (by decide)).1⟩

/-- Claim C6: for a positive temperature and k identical raw distances,
the distance-to-probability converter outputs the uniform log-distribution
log(1/k) at every one of the k positions (in particular no NaN: every
entry is the real number log(1/k)). -/
theorem C6_uniform_on_equal_dists (k : ℕ) (hk : 0 < k) (c : ℚ) (temp : ℝ)
    (_hT : 0 < temp) :
    converter_probs (List.replicate k c) temp =
      List.replicate k (Real.log (1 / (k : ℝ))) := by
  have hk0 : ((k : ℝ)) ≠ 0 := Nat.cast_ne_zero.mpr (Nat.pos_iff_ne_zero.mp hk)
  unfold converter_probs log_softmax logsumexp
  rw [List.map_replicate, List.map_replicate, List.map_replicate,
    List.sum_replicate, nsmul_eq_mul,
    Real.log_mul hk0 (Real.exp_ne_zero _), Real.log_exp]
  congr 1
  rw [one_div, Real.log_inv]
  ring

theorem C6_uniform_on_equal_dists_witness :
    converter_probs (List.replicate 2 (3 : ℚ)) 1 =
      List.replicate 2 (Real.log (1 / ((2 : ℕ) : ℝ))) :=
  C6_uniform_on_equal_dists 2 (by norm_num) 3 1 (by norm_num)

/-- Claim C4, counterexample: with a projection matrix configured (here
the identity projection) and two models, the per-model quantity accumulated
into avg_probs is negative — the log of the clamped projected probability
(line 115 applies torch.log regardless of the model count) — whereas
without a projection matrix the accumulated quantity is the probability
1/2 itself.  A negative value cannot be a probability. -/
theorem C4_coef_accumulates_log :
    currTargetProb (some (fun p => p)) 2 [1 / 2, 1 / 2] 0 < 0 ∧
      currTargetProb none 2 [1 / 2, 1 / 2] 0 = 1 / 2 := by
  constructor
  · unfold currTargetProb clampLog
    simp only [List.map_cons, List.map_nil, List.getD_cons_zero]
    have hmax : max ((1 : ℝ) / 2) (1e-9 : ℝ) = 1 / 2 := by norm_num
    rw [hmax]
    exact Real.log_neg (by norm_num) (by norm_num)
  · unfold currTargetProb
    norm_num

/-- Claim C4, amended: with more than one model and no projection matrix
configured, the per-model quantities accumulated into avg_probs are
probabilities (get_normalized_probs is called with log_probs=False); they
are summed across models, divided by the model count, and logged exactly
once at the end.  With a projection matrix the accumulated quantity is
already a log-probability (see the counterexample). -/
theorem C4_ensemble_prob_space (modelsP : List (List ℝ)) (tgt : ℕ)
    (h : 1 < modelsP.length) :
    ensembleAvgProb none modelsP tgt =
      Real.log ((modelsP.map (fun p => p.getD tgt 0)).sum /
        (modelsP.length : ℝ)) := by
  have hmap : modelsP.map (fun p => currTargetProb none modelsP.length p tgt) =
      modelsP.map (fun p => p.getD tgt 0) := by
    apply List.map_congr_left
    intro p _
    unfold currTargetProb
    rw [if_neg (by omega)]
  simp only [ensembleAvgProb]
  rw [if_pos h, hmap]

theorem C4_ensemble_prob_space_witness :
    ensembleAvgProb none [[(1 : ℝ) / 2], [1 / 2]] 0 =
      Real.log (((1 : ℝ) / 2 + 1 / 2) / 2) := by
  have h := C4_ensemble_prob_space [[(1 : ℝ) / 2], [1 / 2]] 0 (by norm_num)
  simpa using h

lemma getD_drop (l : List ℝ) (s i : ℕ) :
    (l.drop s).getD i 0 = l.getD (s + i) 0 := by
  rw [List.getD_eq_getElem?_getD, List.getD_eq_getElem?_getD,
    List.getElem?_drop]

lemma sum_take_getD (l : List ℝ) : ∀ n : ℕ, n ≤ l.length →
    (l.take n).sum = (Finset.range n).sum (fun i => l.getD i 0) := by
  intro n
  induction n with
  | zero => simp
  | succ m ih =>
    intro h
    rw [Finset.sum_range_succ, ← ih (by omega), List.take_succ,
      List.sum_append]
    congr 1
    have hm : m < l.length := by omega
    rw [List.getElem?_eq_getElem hm]
    simp [List.getD_eq_getElem?_getD, List.getElem?_eq_getElem hm]

/-- Claim C7: with start offset s, the per-sequence score is the sum of
the positional log-probabilities at absolute positions s..s+tgt_len-1
divided by tgt_len, where tgt_len counts the non-pad target tokens from
position s onward; and the score does not depend on the entries before
position s. -/
theorem C7_left_pad_score (pad : ℤ) (target : List ℤ) (avg : List ℝ)
    (s : ℕ) (h : s + (strip_pad (target.drop s) pad).length ≤ avg.length) :
    sequenceScore pad target avg s =
        ((Finset.range (strip_pad (target.drop s) pad).length).sum
            (fun i => avg.getD (s + i) 0)) /
          ((strip_pad (target.drop s) pad).length : ℝ) ∧
      ∀ avg' : List ℝ, avg'.drop s = avg.drop s →
        sequenceScore pad target avg' s = sequenceScore pad target avg s := by
  constructor
  · simp only [sequenceScore]
    congr 1
    rw [sum_take_getD _ _ (by rw [List.length_drop]; omega)]
    apply Finset.sum_congr rfl
    intro i _
    rw [getD_drop]
  · intro avg' hdrop
    simp only [sequenceScore]
    rw [hdrop]

theorem C7_left_pad_score_witness :
    sequenceScore 1 [1, 1, 7, 8, 9] [10, 20, 30, 40, 50] 2 =
        ((Finset.range (strip_pad (([1, 1, 7, 8, 9] : List ℤ).drop 2) 1).length).sum
            (fun i => ([10, 20, 30, 40, 50] : List ℝ).getD (2 + i) 0)) /
          ((strip_pad (([1, 1, 7, 8, 9] : List ℤ).drop 2) 1).length : ℝ) ∧
      sequenceScore 1 [1, 1, 7, 8, 9] [0, 0, 30, 40, 50] 2 =
        sequenceScore 1 [1, 1, 7, 8, 9] [10, 20, 30, 40, 50] 2 := by
  have h := C7_left_pad_score 1 [1, 1, 7, 8, 9] [10, 20, 30, 40, 50] 2
    (by decide)
  exact ⟨h.1, h.2 [0, 0, 30, 40, 50] rfl⟩

lemma chunks_map_flatten {α β : Type*} (bs : ℕ) (hbs : 1 ≤ bs) (g : α → β)
    (qs : List α) :
    ((chunksFuel bs qs.length qs).map (fun b => b.map g)).flatten =
      qs.map g := by
  rw [← List.map_flatten, chunksFuel_flatten bs hbs qs.length qs le_rfl]

lemma sum_negDists (ds : List ℚ) : (negDists ds).sum = -ds.sum := by
  unfold negDists
  induction ds with
  | nil => simp
  | cons d tl ih =>
    simp only [List.map_cons, List.sum_cons, ih]
    ring

/-- Claim C8, counterexample: for a single query whose search returns the
raw distances [1, 2], the persisted summed-distances entry is -3 — the
sum of the negated distances (line 60 negates before line 68 sums) — and
not the sum 1 + 2 of the raw distances returned by the search. -/
theorem C8_saved_dists_negated :
    (sweepOutputs 1 [5, 5] (fun _ : Unit => ([1, 2], [0, 1])) (fun _ => 5) 1
        [()]).2.2 = [-3] ∧ ((-3 : ℚ)) ≠ (1 : ℚ) + 2 := by
  constructor
  · norm_num [sweepOutputs, chunksFuel, negDists]
  · norm_num

/-- Claim C8, amended: for each temperature the sweep persists three
arrays positionally aligned with the query set: (a) per-query aggregated
retrieval log-probabilities, (b) per-query neighbor ids, and (c) per-query
summed distances, where the summed-distances entry is the sum of the k
negated raw distances, i.e. -1 times the sum of the raw distances returned
by the search. -/
theorem C8_sweep_outputs_aligned {α : Type*} (bs : ℕ) (hbs : 1 ≤ bs)
    (vals : List ℤ) (search : α → List ℚ × List ℕ) (tgtOf : α → ℤ)
    (temp : ℝ) (qs : List α) :
    sweepOutputs bs vals search tgtOf temp qs =
      (qs.map (fun q => yhat_knn_prob (search q).1
          ((search q).2.map (fun j => vals.getD j 0)) (tgtOf q) temp),
        qs.map (fun q => (search q).2),
        qs.map (fun q => -(((search q).1).sum))) := by
  simp only [sweepOutputs]
  congr 1
  · exact chunks_map_flatten bs hbs _ qs
  congr 1
  · exact chunks_map_flatten bs hbs _ qs
  · rw [chunks_map_flatten bs hbs _ qs]
    apply List.map_congr_left
    intro q _
    exact sum_negDists (search q).1

theorem C8_sweep_outputs_aligned_witness :
    sweepOutputs 2 [5, 6] (fun _ : Unit => ([1, 2], [0, 1])) (fun _ => 5) 1
        [()] =
      ([yhat_knn_prob [1, 2] ([0, 1].map (fun j => ([5, 6] : List ℤ).getD j 0)) 5 1],
        [[0, 1]], [-((([1, 2] : List ℚ)).sum)]) := by
  have h := C8_sweep_outputs_aligned 2 (by norm_num) [5, 6]
    (fun _ : Unit => ([1, 2], [0, 1])) (fun _ => 5) 1 [()]
  simpa using h
